import Mathlib

/-!
Verification of the sentiment-API deployment script (project2.py).

The development shallowly embeds the script's core: the text normalizer
clean_tweet (a chain of regex substitutions over Unicode strings, modelled
as functions on List Char), the label table LABEL_MAP with its defaulted
lookup, the lazily cached model handle load_model, the /predict request
handler, and the run_api startup sequence.  The classifier artifact itself
is opaque in the source (joblib pickle) and is modelled as an abstract
function from a document to an integer class code.

Modelling notes, matching the source line by line:
- Python regex \s (Unicode) is the explicit code-point set isPySpace below.
- Python regex \w also matches non-ASCII word characters; pyWordChar keeps
  the ASCII fragment.  The difference only affects which of the two later
  passes turns a non-ASCII character into a space, and no statement below
  depends on it.
- str.lower is modelled on ASCII (pyToLower); by the time the source calls
  lower() the third substitution has already reduced the text to ASCII
  alphanumerics and whitespace, where the two agree.
- The scanning re.sub loops are written with an explicit fuel argument equal
  to the input length so that every function is structurally recursive and
  computable by the kernel.
-/

namespace Project2

/-! ## Character classes used by the regexes in clean_tweet -/

/-- Code points matched by Python's Unicode regex class \s (also the set
stripped by str.strip): ASCII space, TAB..CR, FS..US, NEL, NBSP, Ogham
space, the U+2000..U+200A range, LS, PS, NNBSP, MMSP and ideographic
space. -/
def isPySpace (c : Char) : Bool :=
  c.toNat = 32 || (9 ≤ c.toNat && c.toNat ≤ 13) ||
  (28 ≤ c.toNat && c.toNat ≤ 31) || c.toNat = 133 || c.toNat = 160 ||
  c.toNat = 5760 || (8192 ≤ c.toNat && c.toNat ≤ 8202) ||
  c.toNat = 8232 || c.toNat = 8233 || c.toNat = 8239 || c.toNat = 8287 ||
  c.toNat = 12288

/-- Range A-Z of the regex class [A-Za-z0-9]. -/
def isAsciiUpper (c : Char) : Bool := 65 ≤ c.toNat && c.toNat ≤ 90

/-- Range a-z of the regex class [A-Za-z0-9]. -/
def isAsciiLower (c : Char) : Bool := 97 ≤ c.toNat && c.toNat ≤ 122

/-- Range 0-9 of the regex class [A-Za-z0-9]. -/
def isAsciiDigit (c : Char) : Bool := 48 ≤ c.toNat && c.toNat ≤ 57

/-- The regex class [A-Za-z0-9] from the third substitution. -/
def isAlnumAscii (c : Char) : Bool := isAsciiUpper c || isAsciiLower c || isAsciiDigit c

/-- Word characters of the mention regex @\w+ (ASCII fragment of \w). -/
def pyWordChar (c : Char) : Bool := isAlnumAscii c || c = '_'

/-! ## Step 1: re.sub of the pattern http\S+|www\.\S+ with a space -/

/-- Length of the regex match of http\S+|www\.\S+ anchored at the head of
the list, if any.  The first alternative needs the literal "http" followed
by at least one non-space character; the greedy \S+ then extends to the end
of the non-space run.  The second alternative needs the literal "www.". -/
def urlMatchLen (l : List Char) : Option Nat :=
  match l with
  | 'h' :: 't' :: 't' :: 'p' :: rest =>
    let tk := rest.takeWhile (fun c => !isPySpace c)
    if tk.isEmpty then none else some (4 + tk.length)
  | 'w' :: 'w' :: 'w' :: '.' :: rest =>
    let tk := rest.takeWhile (fun c => !isPySpace c)
    if tk.isEmpty then none else some (4 + tk.length)
  | _ => none

/-- Fuelled left-to-right scan of re.sub(r"http\S+|www\.\S+", " ", text):
each match is replaced by one space and scanning resumes after it;
otherwise the character is copied.  Fuel at least the input length makes
the fuel bound irrelevant. -/
def subUrlsF : Nat → List Char → List Char
  | _, [] => []
  | 0, l => l
  | fuel + 1, c :: cs =>
    match urlMatchLen (c :: cs) with
    | some n => ' ' :: subUrlsF fuel ((c :: cs).drop n)
    | none => c :: subUrlsF fuel cs

/-- First substitution of clean_tweet: URLs replaced by single spaces. -/
def subUrls (l : List Char) : List Char := subUrlsF l.length l

/-! ## Step 2: re.sub of the pattern @\w+ with a space -/

/-- Length of the regex match of @\w+ anchored at the head of the list:
a literal at sign followed by one or more word characters (greedy). -/
def mentionMatchLen (l : List Char) : Option Nat :=
  match l with
  | '@' :: rest =>
    let tk := rest.takeWhile pyWordChar
    if tk.isEmpty then none else some (1 + tk.length)
  | _ => none

/-- Fuelled scan of re.sub(r"@\w+", " ", text). -/
def subMentionsF : Nat → List Char → List Char
  | _, [] => []
  | 0, l => l
  | fuel + 1, c :: cs =>
    match mentionMatchLen (c :: cs) with
    | some n => ' ' :: subMentionsF fuel ((c :: cs).drop n)
    | none => c :: subMentionsF fuel cs

/-- Second substitution of clean_tweet: mentions replaced by single spaces. -/
def subMentions (l : List Char) : List Char := subMentionsF l.length l

/-! ## Step 3: re.sub of the pattern [^A-Za-z0-9\s] with a space -/

/-- Characters kept verbatim by the third substitution. -/
def keepChar (c : Char) : Bool := isAlnumAscii c || isPySpace c

/-- Third substitution of clean_tweet: every character outside the class
[A-Za-z0-9\s] becomes a space. -/
def subNonAlnum (l : List Char) : List Char :=
  l.map (fun c => if keepChar c then c else ' ')

/-! ## Step 4: text.lower() -/

/-- ASCII lowercasing; agrees with Python str.lower on the characters
remaining after the third substitution. -/
def pyToLower (c : Char) : Char :=
  if isAsciiUpper c then Char.ofNat (c.toNat + 32) else c

/-- Fourth step of clean_tweet: lowercase everything. -/
def lowerAll (l : List Char) : List Char := l.map pyToLower

/-! ## Step 5: re.sub of the pattern \s+ with a space, then str.strip() -/

/-- Fuelled scan of re.sub(r"\s+", " ", text): a whitespace run collapses
to one ASCII space. -/
def collapseF : Nat → List Char → List Char
  | _, [] => []
  | 0, l => l
  | fuel + 1, c :: cs =>
    if isPySpace c then ' ' :: collapseF fuel (cs.dropWhile isPySpace)
    else c :: collapseF fuel cs

/-- Whitespace-run collapsing at its canonical fuel. -/
def collapseSpaces (l : List Char) : List Char := collapseF l.length l

/-- Remove the trailing whitespace run (the right half of str.strip). -/
def dropTrailing : List Char → List Char
  | [] => []
  | c :: cs =>
    match dropTrailing cs with
    | [] => if isPySpace c then [] else [c]
    | r => c :: r

/-- str.strip(): drop the leading and the trailing whitespace run. -/
def stripPy (l : List Char) : List Char := dropTrailing (l.dropWhile isPySpace)

/-- The normalizer clean_tweet of project2.py: URL removal, mention
removal, the non-alphanumeric sweep, lowercasing, and whitespace
collapsing plus strip, in the exact order of the source. -/
def clean_tweet (l : List Char) : List Char :=
  stripPy (collapseSpaces (lowerAll (subNonAlnum (subMentions (subUrls l)))))

/-! ## Label table -/

/-- The LABEL_MAP dictionary of project2.py. -/
def LABEL_MAP : List (Int × String) := [(0, "negative"), (4, "positive")]

/-- Dictionary lookup LABEL_MAP.get(pred_int, "unknown"). -/
def labelMapGet (k : Int) : String :=
  match LABEL_MAP.find? (fun kv => kv.1 == k) with
  | some kv => kv.2
  | none => "unknown"

/-! ## JSON values and the Python operations the handler applies to them -/

/-- Parsed JSON values as produced by request.get_json.  Numeric payloads
are modelled as integers (no claim involves fractional numbers); objects
are association lists with distinct keys, as Python dicts are. -/
inductive Json where
  | null : Json
  | bool : Bool → Json
  | num : Int → Json
  | str : String → Json
  | arr : List Json → Json
  | obj : List (String × Json) → Json

/-- Python exceptions escaping the handler (Flask turns them into a 500
response); the ok constructor is normal control flow. -/
inductive PyResult (α : Type) where
  | ok : α → PyResult α
  | exn : String → PyResult α

/-- Python truthiness of a parsed JSON value, as tested by not payload:
None, False, zero, and empty strings, lists, and dicts are falsy. -/
def truthy : Json → Bool
  | .null => false
  | .bool b => b
  | .num n => n != 0
  | .str s => s != ""
  | .arr l => !l.isEmpty
  | .obj kvs => !kvs.isEmpty

/-- Whether a JSON list element compares equal to a Python string. -/
def jsonEqStr (j : Json) (s : String) : Bool :=
  match j with
  | .str t => t == s
  | _ => false

/-- Contiguous-substring test, the meaning of the Python in operator on
strings (an empty needle is always found). -/
def hasSubFrom (p : List Char) : List Char → Bool
  | [] => p.isEmpty
  | c :: cs => p.isPrefixOf (c :: cs) || hasSubFrom p cs

/-- The Python membership test key in payload: key lookup on a dict,
element equality on a list, substring search on a string; on any other
value the in operator raises TypeError. -/
def inPayload (key : String) (j : Json) : PyResult Bool :=
  match j with
  | .obj kvs => .ok (kvs.any (fun kv => kv.1 == key))
  | .arr l => .ok (l.any (fun e => jsonEqStr e key))
  | .str s => .ok (hasSubFrom key.data s.data)
  | _ => .exn "TypeError: argument of type is not iterable"

/-- The Python subscript payload[key]: key lookup on a dict (KeyError when
absent); on a list or string the string index raises TypeError, as does
subscripting any other value. -/
def getItem (key : String) (j : Json) : PyResult Json :=
  match j with
  | .obj kvs =>
    match kvs.find? (fun kv => kv.1 == key) with
    | some kv => .ok kv.2
    | none => .exn "KeyError"
  | _ => .exn "TypeError: indices must be integers"

/-- Python repr of a parsed JSON value, used by str() on containers.
String escaping inside repr is not modelled (no statement below evaluates
repr on a string containing quotes or control characters). -/
def pyRepr : Json → String
  | .null => "None"
  | .bool true => "True"
  | .bool false => "False"
  | .num n => toString n
  | .str s => "\x27" ++ s ++ "\x27"
  | .arr l => "[" ++ ", ".intercalate (l.attach.map fun j => pyRepr j.1) ++ "]"
  | .obj kvs =>
    "\x7b" ++
      ", ".intercalate
        (kvs.attach.map fun kv => "\x27" ++ kv.1.1 ++ "\x27: " ++ pyRepr kv.1.2) ++
    "\x7d"
decreasing_by
  · simp_wf
    have h := List.sizeOf_lt_of_mem j.2
    omega
  · simp_wf
    obtain ⟨⟨k, v⟩, hmem⟩ := kv
    have h := List.sizeOf_lt_of_mem hmem
    simp at h ⊢
    omega

/-- Python str() of a parsed JSON value, as applied to payload["text"]. -/
def pyStr : Json → String
  | .str s => s
  | .num n => toString n
  | .bool true => "True"
  | .bool false => "False"
  | .null => "None"
  | .arr l => pyRepr (.arr l)
  | .obj kvs => pyRepr (.obj kvs)

/-! ## Model handle, load_model, predict, run_api -/

/-- The deserialized classifier artifact, opaque in the source: given the
single document of the batch it returns the numeric class code that
model.predict([doc])[0] yields after the int() coercion. -/
def Model : Type := List Char → Int

/-- Process state visible to load_model: the cached global model_pipeline,
whether a file exists at MODEL_PATH, and the artifact stored there. -/
structure ServerState where
  model_pipeline : Option Model
  modelFileExists : Bool
  diskModel : Model

/-- load_model of project2.py: return the cached pipeline if present;
otherwise raise FileNotFoundError when the file is absent, else
deserialize the artifact and cache it in the global. -/
def load_model (st : ServerState) : PyResult Model × ServerState :=
  match st.model_pipeline with
  | some m => (.ok m, st)
  | none =>
    if st.modelFileExists then
      (.ok st.diskModel, { st with model_pipeline := some st.diskModel })
    else
      (.exn "FileNotFoundError", st)

/-- The JSON error body jsonify builds for client errors. -/
def jsonError (msg : String) : Json := .obj [("error", .str msg)]

/-- The /predict handler of project2.py.  The body argument is none when
request.get_json(force=True) raised on an unparseable body (the caught
branch), otherwise the parsed JSON value.  The result pairs the response
(or the escaping exception) with the process state after the call. -/
def predict (body : Option Json) (st : ServerState) :
    PyResult (Json × Nat) × ServerState :=
  match body with
  | none => (.ok (jsonError "Request body must be valid JSON", 400), st)
  | some payload =>
    if !truthy payload then
      (.ok (jsonError "JSON body must contain \x27text\x27 field", 400), st)
    else
      match inPayload "text" payload with
      | .exn e => (.exn e, st)
      | .ok false =>
        (.ok (jsonError "JSON body must contain \x27text\x27 field", 400), st)
      | .ok true =>
        match getItem "text" payload with
        | .exn e => (.exn e, st)
        | .ok v =>
          let raw_text := pyStr v
          let cleaned_text := String.mk (clean_tweet raw_text.data)
          match load_model st with
          | (.exn e, st') => (.exn e, st')
          | (.ok model, st') =>
            let pred_int := model cleaned_text.data
            let label := labelMapGet pred_int
            (.ok (.obj [("input_text", .str raw_text),
                        ("cleaned_text", .str cleaned_text),
                        ("prediction", .num pred_int),
                        ("label", .str label)], 200), st')

/-- Outcome of run_api: either the startup FileNotFoundError (raised
before the server begins accepting traffic) or the serving state handed
to app.run. -/
inductive RunApiResult where
  | failed : String → RunApiResult
  | serving : ServerState → RunApiResult

/-- run_api of project2.py: fail fast when the model file is missing,
otherwise load the model and start serving. -/
def run_api (st : ServerState) : RunApiResult :=
  if !st.modelFileExists then .failed "FileNotFoundError"
  else
    match load_model st with
    | (.exn e, _) => .failed e
    | (.ok _, st') => .serving st'

/-! ## Interleaving model of two concurrent first calls to load_model

The body of load_model is four observable steps per thread: read the
global (the None test), the os.path.exists test, the joblib.load call
(counted), and the assignment to the global.  The model file is taken to
exist, so the exists test always passes.  A schedule is a list of booleans
naming which of the two threads performs its next step. -/

/-- Shared-plus-local state of two threads inside load_model: whether the
global model_pipeline is set, how many joblib.load calls have completed,
and each thread's program counter (0 = None test, 1 = exists test,
2 = joblib.load, 3 = assignment, 4 = returned). -/
structure RaceState where
  loaded : Bool
  loads : Nat
  pc1 : Nat
  pc2 : Nat

/-- One step of a thread executing the body of load_model. -/
def threadStep (pc : Nat) (loaded : Bool) (loads : Nat) : Nat × Bool × Nat :=
  match pc with
  | 0 => (if loaded then 4 else 1, loaded, loads)
  | 1 => (2, loaded, loads)
  | 2 => (3, loaded, loads + 1)
  | 3 => (4, true, loads)
  | _ => (pc, loaded, loads)

/-- Run one scheduled step (true = first thread, false = second). -/
def stepRace (t : Bool) (st : RaceState) : RaceState :=
  if t then
    let r := threadStep st.pc1 st.loaded st.loads
    { st with pc1 := r.1, loaded := r.2.1, loads := r.2.2 }
  else
    let r := threadStep st.pc2 st.loaded st.loads
    { st with pc2 := r.1, loaded := r.2.1, loads := r.2.2 }

/-- Run a whole schedule. -/
def runSched (sched : List Bool) (st : RaceState) : RaceState :=
  match sched with
  | [] => st
  | t :: rest => runSched rest (stepRace t st)

/-- Both threads about to make their first call, nothing cached yet. -/
def initRace : RaceState := ⟨false, 0, 0, 0⟩

/-- Both threads about to call load_model after the model was already
cached, as it is once run_api has performed its startup load. -/
def loadedRace : RaceState := ⟨true, 0, 0, 0⟩

/-- Invariant of the race model once the artifact is cached: the global
stays set, no load runs, and both threads are outside the loading code. -/
def raceIdle (st : RaceState) : Prop :=
  st.loaded = true ∧ st.loads = 0 ∧ (st.pc1 = 0 ∨ st.pc1 = 4) ∧
    (st.pc2 = 0 ∨ st.pc2 = 4)

/-! ## Predicates used to state properties of clean_tweet -/

/-- No position of the list starts a match of the URL regex. -/
def urlFree : List Char → Bool
  | [] => true
  | c :: cs => (urlMatchLen (c :: cs)).isNone && urlFree cs

/-- Lowercase ASCII letter or ASCII digit. -/
def isLowerAlnum (c : Char) : Bool := isAsciiLower c || isAsciiDigit c

/-- A character the normalizer may emit: lowercase alphanumeric or one
ASCII space. -/
def cleanChar (c : Char) : Bool := isLowerAlnum c || c = ' '

/-- No two adjacent ASCII spaces anywhere in the list. -/
def noTwoSpaces : List Char → Bool
  | [] => true
  | [_] => true
  | a :: b :: r => !(a == ' ' && b == ' ') && noTwoSpaces (b :: r)

/-- The list does not begin with a space. -/
def headOk : List Char → Bool
  | [] => true
  | c :: _ => !(c == ' ')

/-- The list does not end with a space. -/
def lastOk (l : List Char) : Bool :=
  match l.getLast? with
  | some c => !(c == ' ')
  | none => true

/-! ## Claim theorems: label map, worked examples, model handle -/

/-- C3: the label mapper is a pure total function on integers: class code
0 maps to "negative", 4 maps to "positive", and every other integer maps
to "unknown" without failing. -/
theorem C3_theorem :
    labelMapGet 0 = "negative" ∧ labelMapGet 4 = "positive" ∧
      ∀ k : Int, k ≠ 0 → k ≠ 4 → labelMapGet k = "unknown" := by
  refine ⟨rfl, rfl, ?_⟩
  intro k h0 h4
  have e0 : ((0 : Int) == k) = false := by
    rw [Bool.eq_false_iff]
    intro hc
    exact h0 (beq_iff_eq.mp hc).symm
  have e4 : ((4 : Int) == k) = false := by
    rw [Bool.eq_false_iff]
    intro hc
    exact h4 (beq_iff_eq.mp hc).symm
  simp [labelMapGet, LABEL_MAP, List.find?, e0, e4]

/-- C3 witness: the sample other integer 2 maps to "unknown". -/
theorem C3_witness :
    (2 : Int) ≠ 0 ∧ (2 : Int) ≠ 4 ∧ labelMapGet 2 = "unknown" :=
  ⟨by decide, by decide, C3_theorem.2.2 2 (by decide) (by decide)⟩

/-- C5: the normalizer satisfies both worked examples of the spec. -/
theorem C5_theorem :
    clean_tweet "check http://x.co @bob Great!!".data = "check great".data ∧
      clean_tweet "WOW    cool".data = "wow cool".data := by
  constructor <;> decide

/-- C7: with nothing cached and the artifact file absent, load_model
raises FileNotFoundError leaving the cached-model state unchanged, and
run_api refuses to begin serving. -/
theorem C7_theorem (st : ServerState) (hcache : st.model_pipeline = none)
    (hfile : st.modelFileExists = false) :
    load_model st = (.exn "FileNotFoundError", st) ∧
      run_api st = .failed "FileNotFoundError" := by
  constructor
  · simp [load_model, hcache, hfile]
  · simp [run_api, hfile]

/-- C7 witness: a concrete state with an empty cache and a missing file. -/
theorem C7_witness :
    load_model ⟨none, false, fun _ => 0⟩ =
        (.exn "FileNotFoundError", ⟨none, false, fun _ => 0⟩) ∧
      run_api ⟨none, false, fun _ => 0⟩ = .failed "FileNotFoundError" :=
  C7_theorem ⟨none, false, fun _ => 0⟩ rfl rfl

/-- C8: once the model handle is cached, load_model returns exactly the
cached artifact and leaves the state untouched, whatever the filesystem
looks like. -/
theorem C8_theorem (st : ServerState) (m : Model)
    (h : st.model_pipeline = some m) : load_model st = (.ok m, st) := by
  simp [load_model, h]

/-- C8 witness: a cached model is returned unchanged even though the
artifact file is gone. -/
theorem C8_witness :
    load_model ⟨some (fun _ => 4), false, fun _ => 0⟩ =
      (.ok (fun _ => 4), ⟨some (fun _ => 4), false, fun _ => 0⟩) :=
  C8_theorem ⟨some (fun _ => 4), false, fun _ => 0⟩ (fun _ => 4) rfl

/-! ## Claim theorems: the loading race -/

/-- C9 counterexample: an interleaving of two concurrent first calls to
load_model in which the deserialization routine executes twice. -/
theorem C9_counterexample :
    (runSched [true, false, true, true, true, false, false, false]
        initRace).loads = 2 := by
  decide

theorem stepRace_idle (t : Bool) (st : RaceState) (h : raceIdle st) :
    raceIdle (stepRace t st) := by
  obtain ⟨hl, hn, hp1, hp2⟩ := h
  cases t <;> rcases hp1 with h1 | h1 <;> rcases hp2 with h2 | h2 <;>
    simp [stepRace, threadStep, raceIdle, hl, hn, h1, h2]

theorem runSched_idle (sched : List Bool) (st : RaceState) (h : raceIdle st) :
    raceIdle (runSched sched st) := by
  induction sched generalizing st with
  | nil => exact h
  | cons t rest ih => exact ih (stepRace t st) (stepRace_idle t st h)

/-- C9 amended: load_model has no synchronization, so two uncached
concurrent calls can both deserialize; once the model is cached before
serving, as run_api arranges at startup, every interleaving of two
concurrent calls performs zero further loads and keeps the handle set. -/
theorem C9_theorem (sched : List Bool) :
    (runSched sched loadedRace).loads = 0 ∧
      (runSched sched loadedRace).loaded = true := by
  have h := runSched_idle sched loadedRace ⟨rfl, rfl, Or.inl rfl, Or.inl rfl⟩
  exact ⟨h.2.1, h.1⟩

/-! ## Claim theorems: the predict handler -/

/-- C1 counterexample: the normalizer is not idempotent.  The input HTTPx
survives the case-sensitive URL pass and is only lowercased afterwards,
so a second application wipes it out. -/
theorem C1_counterexample :
    clean_tweet (clean_tweet "HTTPx".data) ≠ clean_tweet "HTTPx".data := by
  decide

/-- C4 counterexample: the JSON number 5 is valid JSON lacking a text
field, yet the handler raises TypeError (surfacing as a 500 response)
instead of returning 400: the membership test text in payload is not
defined on integers. -/
theorem C4_counterexample :
    (predict (some (Json.num 5)) ⟨none, true, fun _ => 0⟩).1 =
      PyResult.exn "TypeError: argument of type is not iterable" := rfl

/-- C4 amended: a falsy JSON body (null, false, zero, empty string, empty
array, empty object) or any body whose membership test for "text" comes
out false yields status 400 with an error key, with the classifier and
loader never invoked and the model-load state unchanged; truthy numbers
and booleans instead raise a TypeError that surfaces as a server error. -/
theorem C4_theorem (payload : Json) (st : ServerState)
    (h : truthy payload = false ∨ inPayload "text" payload = .ok false) :
    predict (some payload) st =
      (.ok (jsonError "JSON body must contain \x27text\x27 field", 400), st) := by
  rcases h with h | h
  · simp [predict, h]
  · cases htruthy : truthy payload
    · simp [predict, htruthy]
    · simp [predict, htruthy, h]

/-- C4 witness: the empty JSON object gets the 400 error response and
leaves the uncached state untouched. -/
theorem C4_witness :
    predict (some (Json.obj [])) ⟨none, true, fun _ => 0⟩ =
      (.ok (jsonError "JSON body must contain \x27text\x27 field", 400),
        ⟨none, true, fun _ => 0⟩) :=
  C4_theorem (Json.obj []) ⟨none, true, fun _ => 0⟩ (Or.inl rfl)

/-- C2: a JSON object carrying a text field, when the model loads and
classifies, gets a 200 response whose input_text is the raw text, whose
cleaned_text is clean_tweet of it, whose prediction is the classifier's
integer class code, and whose label is the table lookup of that code. -/
theorem C2_theorem (kvs : List (String × Json)) (v : Json)
    (st st' : ServerState) (m : Model)
    (hkey : inPayload "text" (Json.obj kvs) = .ok true)
    (hget : getItem "text" (Json.obj kvs) = .ok v)
    (hload : load_model st = (.ok m, st')) :
    predict (some (Json.obj kvs)) st =
      (.ok (.obj [("input_text", .str (pyStr v)),
                  ("cleaned_text", .str (String.mk (clean_tweet (pyStr v).data))),
                  ("prediction", .num (m (clean_tweet (pyStr v).data))),
                  ("label", .str (labelMapGet (m (clean_tweet (pyStr v).data))))],
        200), st') := by
  have htruthy : truthy (Json.obj kvs) = true := by
    cases kvs with
    | nil => simp [inPayload] at hkey
    | cons a l => simp [truthy]
  simp [predict, htruthy, hkey, hget, hload]

/-- C2 witness: a cached stub classifier answering 4 labels the request
text Great!! as positive, echoing the raw and cleaned text. -/
theorem C2_witness :
    predict (some (Json.obj [("text", Json.str "Great!!")]))
        ⟨some (fun _ => 4), true, fun _ => 4⟩ =
      (.ok (.obj [("input_text", .str "Great!!"),
                  ("cleaned_text", .str "great"),
                  ("prediction", .num 4),
                  ("label", .str "positive")], 200),
        ⟨some (fun _ => 4), true, fun _ => 4⟩) :=
  C2_theorem [("text", Json.str "Great!!")] (Json.str "Great!!")
    ⟨some (fun _ => 4), true, fun _ => 4⟩ ⟨some (fun _ => 4), true, fun _ => 4⟩
    (fun _ => 4) rfl rfl rfl

/-! ## Character-level facts -/

theorem pyspace_not_upper (c : Char) (h : isPySpace c = true) :
    isAsciiUpper c = false := by
  rw [Bool.eq_false_iff]
  intro hc
  simp only [isPySpace, isAsciiUpper, Bool.or_eq_true, Bool.and_eq_true,
    decide_eq_true_eq] at h hc
  omega

theorem pyToLower_space (c : Char) (h : isPySpace c = true) :
    pyToLower c = c := by
  simp [pyToLower, pyspace_not_upper c h]

theorem pyToLower_alnum (c : Char) (h : isAlnumAscii c = true) :
    isLowerAlnum (pyToLower c) = true := by
  have key : ∀ n : Nat, 48 ≤ n → n ≤ 122 →
      isAlnumAscii (Char.ofNat n) = true →
      isLowerAlnum (pyToLower (Char.ofNat n)) = true := by
    intro n h1 h2
    interval_cases n <;> decide
  have hb : 48 ≤ c.toNat ∧ c.toNat ≤ 122 := by
    simp only [isAlnumAscii, isAsciiUpper, isAsciiLower, isAsciiDigit,
      Bool.or_eq_true, Bool.and_eq_true, decide_eq_true_eq] at h
    omega
  have hc := Char.ofNat_toNat c
  have hres := key c.toNat hb.1 hb.2 (by rw [hc]; exact h)
  rwa [hc] at hres

theorem lower_not_upper (c : Char) (h : isLowerAlnum c = true) :
    isAsciiUpper c = false := by
  rw [Bool.eq_false_iff]
  intro hc
  simp only [isLowerAlnum, isAsciiLower, isAsciiDigit, isAsciiUpper,
    Bool.or_eq_true, Bool.and_eq_true, decide_eq_true_eq] at h hc
  omega

theorem pyToLower_lower (c : Char) (h : isLowerAlnum c = true) :
    pyToLower c = c := by
  simp [pyToLower, lower_not_upper c h]

theorem lower_not_pyspace (c : Char) (h : isLowerAlnum c = true) :
    isPySpace c = false := by
  rw [Bool.eq_false_iff]
  intro hc
  simp only [isLowerAlnum, isAsciiLower, isAsciiDigit, isPySpace,
    Bool.or_eq_true, Bool.and_eq_true, decide_eq_true_eq] at h hc
  omega

theorem lower_alnum (c : Char) (h : isLowerAlnum c = true) :
    isAlnumAscii c = true := by
  simp only [isLowerAlnum, Bool.or_eq_true] at h
  simp only [isAlnumAscii, Bool.or_eq_true]
  tauto

theorem cleanChar_keep (c : Char) (h : cleanChar c = true) :
    keepChar c = true := by
  simp only [cleanChar, Bool.or_eq_true, decide_eq_true_eq] at h
  rcases h with h | rfl
  · simp [keepChar, lower_alnum c h]
  · decide

theorem cleanChar_not_at (c : Char) (h : cleanChar c = true) : c ≠ '@' := by
  rintro rfl
  simp only [cleanChar, Bool.or_eq_true, decide_eq_true_eq] at h
  rcases h with h | h
  · exact absurd h (by decide)
  · exact absurd h (by decide)

theorem cleanChar_space_eq (c : Char) (h : cleanChar c = true)
    (hs : isPySpace c = true) : c = ' ' := by
  simp only [cleanChar, Bool.or_eq_true, decide_eq_true_eq] at h
  rcases h with h | rfl
  · exact absurd hs (by simp [lower_not_pyspace c h])
  · rfl

theorem cleanChar_pyToLower (c : Char) (h : cleanChar c = true) :
    pyToLower c = c := by
  simp only [cleanChar, Bool.or_eq_true, decide_eq_true_eq] at h
  rcases h with h | rfl
  · exact pyToLower_lower c h
  · decide

theorem cleanChar_not_pyspace (c : Char) (h : cleanChar c = true)
    (hne : c ≠ ' ') : isPySpace c = false := by
  simp only [cleanChar, Bool.or_eq_true, decide_eq_true_eq] at h
  rcases h with h | rfl
  · exact lower_not_pyspace c h
  · exact absurd rfl hne

/-! ## Structural lemmas about whitespace collapsing and stripping -/

theorem not_pyspace_ne_space (c : Char) (h : isPySpace c = false) :
    (c == ' ') = false := by
  rw [Bool.eq_false_iff]
  intro he
  rw [beq_iff_eq.mp he] at h
  exact absurd h (by decide)

theorem noTwo_tail (a : Char) (l : List Char)
    (h : noTwoSpaces (a :: l) = true) : noTwoSpaces l = true := by
  cases l with
  | nil => rfl
  | cons b r =>
    rw [noTwoSpaces, Bool.and_eq_true] at h
    exact h.2

theorem noTwo_cons (a : Char) (l : List Char) (ha : (a == ' ') = false)
    (h : noTwoSpaces l = true) : noTwoSpaces (a :: l) = true := by
  cases l with
  | nil => rfl
  | cons b r => simp [noTwoSpaces, ha, h]

theorem noTwo_space_cons (l : List Char)
    (hh : ∀ b, l.head? = some b → (b == ' ') = false)
    (h : noTwoSpaces l = true) : noTwoSpaces (' ' :: l) = true := by
  cases l with
  | nil => rfl
  | cons b r => simp [noTwoSpaces, hh b rfl, h]

theorem headOk_iff (l : List Char) :
    headOk l = true ↔ ∀ c, l.head? = some c → (c == ' ') = false := by
  cases l <;> simp [headOk]

theorem dropWhile_head_not (p : Char → Bool) (l : List Char) :
    ∀ c, (l.dropWhile p).head? = some c → p c = false := by
  induction l with
  | nil => intro c hc; simp at hc
  | cons a as ih =>
    intro c hc
    rw [List.dropWhile_cons] at hc
    by_cases ha : p a = true
    · rw [if_pos ha] at hc
      exact ih c hc
    · rw [if_neg ha] at hc
      simp only [List.head?_cons, Option.some.injEq] at hc
      rw [← hc]
      exact Bool.eq_false_iff.mpr ha

theorem collapse_headOk (fuel : Nat) (l : List Char)
    (h : ∀ c, l.head? = some c → isPySpace c = false) :
    headOk (collapseF fuel l) = true := by
  cases l with
  | nil => cases fuel <;> rfl
  | cons x xs =>
    have hx := h x rfl
    have hxs := not_pyspace_ne_space x hx
    cases fuel with
    | zero => simp [collapseF, headOk, hxs]
    | succ f => simp [collapseF, hx, headOk, hxs]

theorem collapseF_mem (fuel : Nat) : ∀ l : List Char, l.length ≤ fuel →
    ∀ c ∈ collapseF fuel l, (c ∈ l ∧ isPySpace c = false) ∨ c = ' ' := by
  induction fuel with
  | zero =>
    intro l hl c hc
    rw [List.eq_nil_of_length_eq_zero (Nat.le_zero.mp hl)] at hc
    simp [collapseF] at hc
  | succ f ih =>
    intro l hl c hc
    cases l with
    | nil => simp [collapseF] at hc
    | cons x xs =>
      have hxs : xs.length ≤ f := Nat.le_of_succ_le_succ hl
      cases hx : isPySpace x with
      | true =>
        rw [collapseF, if_pos hx] at hc
        rcases List.mem_cons.mp hc with rfl | hc'
        · exact Or.inr rfl
        · have hlen : (xs.dropWhile isPySpace).length ≤ f :=
            le_trans (List.Sublist.length_le (List.dropWhile_sublist isPySpace)) hxs
          rcases ih _ hlen c hc' with ⟨hmem, hsp⟩ | hsp
          · exact Or.inl ⟨List.mem_cons_of_mem x
              ((List.dropWhile_sublist isPySpace).subset hmem), hsp⟩
          · exact Or.inr hsp
      | false =>
        rw [collapseF, if_neg (by simp [hx])] at hc
        rcases List.mem_cons.mp hc with rfl | hc'
        · exact Or.inl ⟨List.mem_cons_self c xs, hx⟩
        · rcases ih xs hxs c hc' with ⟨hmem, hsp⟩ | hsp
          · exact Or.inl ⟨List.mem_cons_of_mem x hmem, hsp⟩
          · exact Or.inr hsp

theorem collapseF_noTwo (fuel : Nat) : ∀ l : List Char, l.length ≤ fuel →
    noTwoSpaces (collapseF fuel l) = true := by
  induction fuel with
  | zero =>
    intro l hl
    rw [List.eq_nil_of_length_eq_zero (Nat.le_zero.mp hl)]
    rfl
  | succ f ih =>
    intro l hl
    cases l with
    | nil => rfl
    | cons x xs =>
      have hxs : xs.length ≤ f := Nat.le_of_succ_le_succ hl
      cases hx : isPySpace x with
      | true =>
        rw [collapseF, if_pos hx]
        apply noTwo_space_cons
        · intro b hb
          have hhead := (headOk_iff _).mp
            (collapse_headOk f (xs.dropWhile isPySpace)
              (dropWhile_head_not isPySpace xs))
          exact hhead b hb
        · exact ih _ (le_trans (List.Sublist.length_le
            (List.dropWhile_sublist isPySpace)) hxs)
      | false =>
        rw [collapseF, if_neg (by simp [hx])]
        exact noTwo_cons x _ (not_pyspace_ne_space x hx) (ih xs hxs)

theorem dropTrailing_mem (l : List Char) : ∀ c ∈ dropTrailing l, c ∈ l := by
  induction l with
  | nil => intro c hc; simp [dropTrailing] at hc
  | cons a as ih =>
    intro c hc
    rw [dropTrailing] at hc
    cases hr : dropTrailing as with
    | nil =>
      rw [hr] at hc
      by_cases ha : isPySpace a = true
      · rw [if_pos ha] at hc; simp at hc
      · rw [if_neg ha] at hc
        rcases List.mem_cons.mp hc with rfl | hc'
        · exact List.mem_cons_self c as
        · simp at hc'
    | cons b bs =>
      rw [hr] at hc
      rcases List.mem_cons.mp hc with rfl | hc'
      · exact List.mem_cons_self c as
      · exact List.mem_cons_of_mem a (ih c (hr ▸ hc'))

theorem dropTrailing_head (l : List Char) :
    ∀ c, (dropTrailing l).head? = some c → l.head? = some c := by
  induction l with
  | nil => intro c hc; simp [dropTrailing] at hc
  | cons a as ih =>
    intro c hc
    rw [dropTrailing] at hc
    cases hr : dropTrailing as with
    | nil =>
      rw [hr] at hc
      by_cases ha : isPySpace a = true
      · rw [if_pos ha] at hc; simp at hc
      · rw [if_neg ha] at hc
        simp only [List.head?_cons, Option.some.injEq] at hc
        simp [hc]
    | cons b bs =>
      rw [hr] at hc
      simp only [List.head?_cons, Option.some.injEq] at hc
      simp [hc]

theorem dropTrailing_last_not_space (l : List Char) :
    ∀ c, (dropTrailing l).getLast? = some c → isPySpace c = false := by
  induction l with
  | nil => intro c hc; simp [dropTrailing] at hc
  | cons a as ih =>
    intro c hc
    rw [dropTrailing] at hc
    cases hr : dropTrailing as with
    | nil =>
      rw [hr] at hc
      by_cases ha : isPySpace a = true
      · rw [if_pos ha] at hc; simp at hc
      · rw [if_neg ha] at hc
        simp only [List.getLast?_singleton, Option.some.injEq] at hc
        rw [← hc]
        exact Bool.eq_false_iff.mpr ha
    | cons b bs =>
      rw [hr] at hc
      rw [List.getLast?_cons_cons] at hc
      exact ih c (hr ▸ hc)

theorem head_eq_of_dropTrailing_cons (l : List Char) (b : Char)
    (bs : List Char) (h : dropTrailing l = b :: bs) :
    ∃ t, l = b :: t := by
  have hh : (dropTrailing l).head? = some b := by rw [h]; rfl
  have := dropTrailing_head l b hh
  cases l with
  | nil => simp at this
  | cons x xs =>
    simp only [List.head?_cons, Option.some.injEq] at this
    exact ⟨xs, by rw [this]⟩

theorem dropTrailing_noTwo (l : List Char) (h : noTwoSpaces l = true) :
    noTwoSpaces (dropTrailing l) = true := by
  induction l with
  | nil => rfl
  | cons a as ih =>
    rw [dropTrailing]
    cases hr : dropTrailing as with
    | nil =>
      by_cases ha : isPySpace a = true
      · rw [if_pos ha]; rfl
      · rw [if_neg ha]; rfl
    | cons b bs =>
      have hnt := ih (noTwo_tail a as h)
      rw [hr] at hnt
      obtain ⟨t, rfl⟩ := head_eq_of_dropTrailing_cons as b bs hr
      rw [noTwoSpaces, Bool.and_eq_true] at h
      rw [noTwoSpaces, Bool.and_eq_true]
      exact ⟨h.1, hnt⟩

theorem dropWhile_noTwo (l : List Char) (h : noTwoSpaces l = true) :
    noTwoSpaces (l.dropWhile isPySpace) = true := by
  induction l with
  | nil => rfl
  | cons a as ih =>
    rw [List.dropWhile_cons]
    by_cases ha : isPySpace a = true
    · rw [if_pos ha]
      exact ih (noTwo_tail a as h)
    · rw [if_neg ha]
      exact h

/-! ## The output invariant of clean_tweet -/

theorem mem_lower_subNonAlnum (l : List Char) (c : Char)
    (hc : c ∈ lowerAll (subNonAlnum l)) :
    isLowerAlnum c = true ∨ isPySpace c = true := by
  simp only [lowerAll, subNonAlnum, List.map_map, List.mem_map,
    Function.comp] at hc
  obtain ⟨x, hx, rfl⟩ := hc
  by_cases hk : keepChar x = true
  · rw [if_pos hk]
    simp only [keepChar, Bool.or_eq_true] at hk
    rcases hk with hk | hk
    · exact Or.inl (pyToLower_alnum x hk)
    · rw [pyToLower_space x hk]
      exact Or.inr hk
  · rw [if_neg hk]
    exact Or.inr (by decide)

theorem clean_tweet_chars (s : List Char) :
    ∀ c ∈ clean_tweet s, cleanChar c = true := by
  intro c hc
  rw [clean_tweet, stripPy] at hc
  have hc1 : c ∈ collapseSpaces (lowerAll (subNonAlnum (subMentions (subUrls s)))) :=
    (List.dropWhile_sublist isPySpace).subset (dropTrailing_mem _ c hc)
  rw [collapseSpaces] at hc1
  rcases collapseF_mem _ _ le_rfl c hc1 with ⟨hmem, hsp⟩ | rfl
  · rcases mem_lower_subNonAlnum _ c hmem with h | h
    · simp [cleanChar, h]
    · rw [h] at hsp
      simp at hsp
  · decide

theorem clean_tweet_noTwo (s : List Char) :
    noTwoSpaces (clean_tweet s) = true := by
  rw [clean_tweet, stripPy]
  apply dropTrailing_noTwo
  apply dropWhile_noTwo
  rw [collapseSpaces]
  exact collapseF_noTwo _ _ le_rfl

theorem clean_tweet_headOk (s : List Char) : headOk (clean_tweet s) = true := by
  rw [headOk_iff]
  intro c hc
  rw [clean_tweet, stripPy] at hc
  have h2 := dropTrailing_head _ c hc
  have h3 := dropWhile_head_not isPySpace _ c h2
  exact not_pyspace_ne_space c h3

theorem lastOk_of (l : List Char)
    (h : ∀ c, l.getLast? = some c → isPySpace c = false) : lastOk l = true := by
  rw [lastOk]
  split
  · next c heq => simp [not_pyspace_ne_space c (h c heq)]
  · rfl

theorem clean_tweet_lastOk (s : List Char) : lastOk (clean_tweet s) = true := by
  rw [clean_tweet, stripPy]
  exact lastOk_of _ (fun c hg => dropTrailing_last_not_space _ c hg)

/-- C10: every output of clean_tweet consists solely of lowercase ASCII
letters, ASCII digits and single spaces: it has no two adjacent spaces,
does not begin or end with whitespace, and contains no uppercase letter,
punctuation or non-ASCII character. -/
theorem C10_theorem (s : List Char) :
    ((clean_tweet s).all cleanChar && noTwoSpaces (clean_tweet s) &&
      headOk (clean_tweet s) && lastOk (clean_tweet s)) = true := by
  have h1 : (clean_tweet s).all cleanChar = true :=
    List.all_eq_true.mpr (fun c hc => clean_tweet_chars s c hc)
  simp [h1, clean_tweet_noTwo s, clean_tweet_headOk s, clean_tweet_lastOk s]

/-! ## Degradation of alphanumeric-free input to the empty string -/

theorem urlMatchLen_none_of_not_alnum (c : Char) (cs : List Char)
    (h : isAlnumAscii c = false) : urlMatchLen (c :: cs) = none := by
  unfold urlMatchLen
  split
  · next rest heq =>
    have hc : c = 'h' := by injection heq
    rw [hc] at h
    exact absurd h (by decide)
  · next rest heq =>
    have hc : c = 'w' := by injection heq
    rw [hc] at h
    exact absurd h (by decide)
  · rfl

theorem subUrlsF_id_no_alnum (fuel : Nat) : ∀ l : List Char,
    (∀ c ∈ l, isAlnumAscii c = false) → subUrlsF fuel l = l := by
  induction fuel with
  | zero => intro l h; cases l <;> rfl
  | succ f ih =>
    intro l h
    cases l with
    | nil => rfl
    | cons c cs =>
      rw [subUrlsF, urlMatchLen_none_of_not_alnum c cs
        (h c (List.mem_cons_self c cs))]
      exact congrArg (c :: ·)
        (ih cs (fun x hx => h x (List.mem_cons_of_mem c hx)))

theorem subMentionsF_mem (fuel : Nat) : ∀ l : List Char,
    ∀ c ∈ subMentionsF fuel l, c ∈ l ∨ c = ' ' := by
  induction fuel with
  | zero =>
    intro l c hc
    cases l with
    | nil => simp [subMentionsF] at hc
    | cons x xs => exact Or.inl hc
  | succ f ih =>
    intro l c hc
    cases l with
    | nil => simp [subMentionsF] at hc
    | cons x xs =>
      rw [subMentionsF] at hc
      cases hm : mentionMatchLen (x :: xs) with
      | some n =>
        rw [hm] at hc
        rcases List.mem_cons.mp hc with rfl | hc'
        · exact Or.inr rfl
        · rcases ih _ c hc' with hmem | rfl
          · exact Or.inl (List.drop_subset n (x :: xs) hmem)
          · exact Or.inr rfl
      | none =>
        rw [hm] at hc
        rcases List.mem_cons.mp hc with rfl | hc'
        · exact Or.inl (List.mem_cons_self c xs)
        · rcases ih xs c hc' with hmem | rfl
          · exact Or.inl (List.mem_cons_of_mem x hmem)
          · exact Or.inr rfl

theorem lower_subNonAlnum_space_of_no_alnum (l : List Char)
    (h : ∀ c ∈ l, isAlnumAscii c = false) :
    ∀ c ∈ lowerAll (subNonAlnum l), isPySpace c = true := by
  intro c hc
  simp only [lowerAll, subNonAlnum, List.map_map, List.mem_map,
    Function.comp] at hc
  obtain ⟨x, hx, rfl⟩ := hc
  by_cases hk : keepChar x = true
  · rw [if_pos hk]
    simp only [keepChar, Bool.or_eq_true] at hk
    rcases hk with hk | hk
    · exact absurd hk (by simp [h x hx])
    · rw [pyToLower_space x hk]
      exact hk
  · rw [if_neg hk]
    decide

theorem strip_collapse_all_space (l : List Char)
    (h : ∀ c ∈ l, isPySpace c = true) : stripPy (collapseSpaces l) = [] := by
  cases l with
  | nil => rfl
  | cons c cs =>
    have hc := h c (List.mem_cons_self c cs)
    have hdw : cs.dropWhile isPySpace = [] :=
      List.dropWhile_eq_nil_iff.mpr (fun x hx => h x (List.mem_cons_of_mem c hx))
    have hnil : collapseF cs.length [] = [] := by cases cs.length <;> rfl
    rw [collapseSpaces, List.length_cons, collapseF, if_pos hc, hdw, hnil]
    decide

/-- C6: the normalizer is a total function with no error conditions: the
empty string maps to the empty string, and any input with no ASCII
alphanumeric content (pure punctuation, pure whitespace, non-Latin text)
degrades to the empty string rather than failing.  Totality itself holds
by construction: every stage is a total function. -/
theorem C6_theorem :
    clean_tweet [] = [] ∧
      ∀ s : List Char, (∀ c ∈ s, isAlnumAscii c = false) → clean_tweet s = [] := by
  refine ⟨rfl, ?_⟩
  intro s h
  have hurl : subUrls s = s := subUrlsF_id_no_alnum s.length s h
  have h2 : ∀ c ∈ subMentions s, isAlnumAscii c = false := by
    intro c hc
    rcases subMentionsF_mem s.length s c hc with hm | rfl
    · exact h c hm
    · decide
  rw [clean_tweet, hurl]
  exact strip_collapse_all_space _ (lower_subNonAlnum_space_of_no_alnum _ h2)

/-- C6 witness: pure punctuation normalizes to the empty string. -/
theorem C6_witness :
    (∀ c ∈ "?!?".data, isAlnumAscii c = false) ∧ clean_tweet "?!?".data = [] :=
  ⟨by decide, C6_theorem.2 "?!?".data (by decide)⟩

/-! ## Identity of every pass on an already-clean, URL-free text -/

theorem subUrlsF_id_urlFree (fuel : Nat) : ∀ l : List Char,
    urlFree l = true → subUrlsF fuel l = l := by
  induction fuel with
  | zero => intro l h; cases l <;> rfl
  | succ f ih =>
    intro l h
    cases l with
    | nil => rfl
    | cons c cs =>
      rw [urlFree, Bool.and_eq_true] at h
      rw [subUrlsF, Option.isNone_iff_eq_none.mp h.1]
      exact congrArg (c :: ·) (ih cs h.2)

theorem subUrls_id_urlFree (l : List Char) (h : urlFree l = true) :
    subUrls l = l := subUrlsF_id_urlFree l.length l h

theorem mentionMatchLen_none (c : Char) (cs : List Char) (h : c ≠ '@') :
    mentionMatchLen (c :: cs) = none := by
  unfold mentionMatchLen
  split
  · next rest heq =>
    have hc : c = '@' := by injection heq
    exact absurd hc h
  · rfl

theorem subMentionsF_id (fuel : Nat) : ∀ l : List Char,
    (∀ c ∈ l, c ≠ '@') → subMentionsF fuel l = l := by
  induction fuel with
  | zero => intro l h; cases l <;> rfl
  | succ f ih =>
    intro l h
    cases l with
    | nil => rfl
    | cons c cs =>
      rw [subMentionsF, mentionMatchLen_none c cs (h c (List.mem_cons_self c cs))]
      exact congrArg (c :: ·)
        (ih cs (fun x hx => h x (List.mem_cons_of_mem c hx)))

theorem subMentions_id (l : List Char) (h : ∀ c ∈ l, c ≠ '@') :
    subMentions l = l := subMentionsF_id l.length l h

theorem subNonAlnum_id (l : List Char)
    (h : ∀ c ∈ l, cleanChar c = true) : subNonAlnum l = l := by
  have hpt : ∀ c ∈ l, (if keepChar c then c else ' ') = id c :=
    fun c hc => by rw [if_pos (cleanChar_keep c (h c hc))]; rfl
  rw [subNonAlnum, List.map_congr_left hpt, List.map_id]

theorem lowerAll_id (l : List Char)
    (h : ∀ c ∈ l, cleanChar c = true) : lowerAll l = l := by
  have hpt : ∀ c ∈ l, pyToLower c = id c :=
    fun c hc => cleanChar_pyToLower c (h c hc)
  rw [lowerAll, List.map_congr_left hpt, List.map_id]

theorem beq_space_false_ne (b : Char) (h : (b == ' ') = false) : b ≠ ' ' := by
  intro he
  rw [he] at h
  simp at h

theorem collapseF_id (fuel : Nat) : ∀ l : List Char,
    (∀ c ∈ l, cleanChar c = true) → noTwoSpaces l = true →
    collapseF fuel l = l := by
  induction fuel with
  | zero => intro l _ _; cases l <;> rfl
  | succ f ih =>
    intro l hchars hnt
    cases l with
    | nil => rfl
    | cons c cs =>
      have htail : ∀ x ∈ cs, cleanChar x = true :=
        fun x hx => hchars x (List.mem_cons_of_mem c hx)
      by_cases hsp : isPySpace c = true
      · have hceq : c = ' ' :=
          cleanChar_space_eq c (hchars c (List.mem_cons_self c cs)) hsp
        subst hceq
        rw [collapseF, if_pos hsp]
        have hdw : cs.dropWhile isPySpace = cs := by
          cases cs with
          | nil => rfl
          | cons b bs =>
            have hb : (b == ' ') = false := by
              rw [noTwoSpaces, Bool.and_eq_true] at hnt
              have h1 := hnt.1
              rw [show ((' ' == ' ') : Bool) = true from rfl, Bool.true_and,
                Bool.not_eq_true'] at h1
              exact h1
            have hbsp : isPySpace b = false :=
              cleanChar_not_pyspace b
                (htail b (List.mem_cons_self b bs)) (beq_space_false_ne b hb)
            rw [List.dropWhile_cons, if_neg (by simp [hbsp])]
        rw [hdw]
        exact congrArg (' ' :: ·) (ih cs htail (noTwo_tail _ _ hnt))
      · rw [collapseF, if_neg hsp]
        exact congrArg (c :: ·) (ih cs htail (noTwo_tail _ _ hnt))

theorem collapseSpaces_id (l : List Char)
    (hchars : ∀ c ∈ l, cleanChar c = true) (hnt : noTwoSpaces l = true) :
    collapseSpaces l = l := collapseF_id l.length l hchars hnt

theorem lastOk_cons_cons (a b : Char) (bs : List Char) :
    lastOk (a :: b :: bs) = lastOk (b :: bs) := by
  rw [lastOk, lastOk, List.getLast?_cons_cons]

theorem dropTrailing_id (l : List Char)
    (hchars : ∀ c ∈ l, cleanChar c = true) (hlast : lastOk l = true) :
    dropTrailing l = l := by
  induction l with
  | nil => rfl
  | cons a as ih =>
    cases as with
    | nil =>
      have hne : a ≠ ' ' := by
        rw [lastOk] at hlast
        simp only [List.getLast?_singleton, Bool.not_eq_true'] at hlast
        exact beq_space_false_ne a hlast
      have ha : isPySpace a = false :=
        cleanChar_not_pyspace a (hchars a (List.mem_cons_self a [])) hne
      simp [dropTrailing, ha]
    | cons b bs =>
      have hih : dropTrailing (b :: bs) = b :: bs :=
        ih (fun x hx => hchars x (List.mem_cons_of_mem a hx))
          (by rw [← lastOk_cons_cons a]; exact hlast)
      rw [dropTrailing, hih]

theorem stripPy_id (l : List Char)
    (hchars : ∀ c ∈ l, cleanChar c = true) (hhead : headOk l = true)
    (hlast : lastOk l = true) : stripPy l = l := by
  have hdw : l.dropWhile isPySpace = l := by
    cases l with
    | nil => rfl
    | cons c cs =>
      have hne : c ≠ ' ' := by
        rw [headOk] at hhead
        simp only [Bool.not_eq_true'] at hhead
        exact beq_space_false_ne c hhead
      have hc : isPySpace c = false :=
        cleanChar_not_pyspace c (hchars c (List.mem_cons_self c cs)) hne
      rw [List.dropWhile_cons, if_neg (by simp [hc])]
  rw [stripPy, hdw]
  exact dropTrailing_id l hchars hlast

/-- C1 amended: clean_tweet is idempotent at every input whose normalized
form contains no match of the URL regex (no "http" followed by a
non-space, and no "www." at all, which the sweep of punctuation already
rules out).  The unconditional claim fails because lowercasing happens
after the case-sensitive URL pass; see the counterexample. -/
theorem C1_theorem (s : List Char) (h : urlFree (clean_tweet s) = true) :
    clean_tweet (clean_tweet s) = clean_tweet s := by
  have hchars := clean_tweet_chars s
  have hnt := clean_tweet_noTwo s
  have hh := clean_tweet_headOk s
  have hl := clean_tweet_lastOk s
  show stripPy (collapseSpaces (lowerAll (subNonAlnum
    (subMentions (subUrls (clean_tweet s)))))) = clean_tweet s
  rw [subUrls_id_urlFree _ h,
    subMentions_id _ (fun c hc => cleanChar_not_at c (hchars c hc)),
    subNonAlnum_id _ hchars, lowerAll_id _ hchars,
    collapseSpaces_id _ hchars hnt]
  exact stripPy_id _ hchars hh hl

/-- C1 witness: a URL-free input on which idempotence holds. -/
theorem C1_witness :
    urlFree (clean_tweet "hello".data) = true ∧
      clean_tweet (clean_tweet "hello".data) = clean_tweet "hello".data :=
  ⟨by decide, C1_theorem "hello".data (by decide)⟩

end Project2
